import Mathlib

/-!
# mq-api, in-memory broker: partition log and producer

A shallow embedding of `memory/partition.go` and `memory/producer.go`.

* Go passes messages around as `*mq.Message`.  A message reference is an
  address (`Ptr`), the message memory is a `Heap`, and the partition's
  `ArrayList[*mq.Message]` is a list of addresses.  `sendMsg` writes through
  the reference it is given, so the heap is threaded through it.
* Go's `int` is the 64-bit two's-complement integer; the additions of
  `consumerMsg` wrap (`wrapInt`).
* A slice expression out of range is a run-time panic, not a returned value:
  `consumerMsg` yields a `GoResult`.
* The locks are not modelled: every operation is taken as one atomic step.
-/

namespace MqApi

/-! ## Messages and memory -/

/-- Modelled from the spec: the declaration of `mq.Message` is not among the
sources; the fields are those of the spec's data model, under the names the
test suite uses.  Bytes are natural numbers below 256. -/
structure Message where
  Key : List Nat
  Value : List Nat
  Header : List (String × String)
  Topic : String
  PartitionID : Int
  Offset : Int
deriving DecidableEq, Repr

/-- A non-nil `*mq.Message`. -/
abbrev Ptr := Nat

/-- The memory the message references point into. -/
abbrev Heap := Ptr → Message

/-- The zero value `mq.Message{}`. -/
def Message.zero : Message :=
  { Key := [], Value := [], Header := [], Topic := "", PartitionID := 0, Offset := 0 }

/-- A heap in which every message is the zero value. -/
def Heap.zero : Heap := fun _ => Message.zero

/-! ## Machine integers and slices -/

/-- Smallest `int` (64 bit). -/
def minInt : Int := -9223372036854775808

/-- Largest `int` (64 bit). -/
def maxInt : Int := 9223372036854775807

/-- The value is representable as a Go `int`. -/
def isInt (x : Int) : Prop := minInt ≤ x ∧ x ≤ maxInt

instance (x : Int) : Decidable (isInt x) := by
  unfold isInt; exact inferInstance

/-- Two's-complement wrap-around of a 64-bit signed result. -/
def wrapInt (x : Int) : Int :=
  (x + 9223372036854775808) % 18446744073709551616 - 9223372036854775808

/-- Go `a + b` on `int`. -/
def addInt (a b : Int) : Int := wrapInt (a + b)

/-- Run-time panics the modelled code can raise. -/
inductive RuntimePanic where
  | sliceBoundsOutOfRange
deriving DecidableEq, Repr

/-- Outcome of a Go call: it returns a value to its caller, or it panics. -/
inductive GoResult (α : Type) where
  | ret (v : α)
  | panic (r : RuntimePanic)
deriving DecidableEq, Repr

/-- The slice expression `s[lo:hi]` on a slice whose capacity equals its
length (`AsSlice` hands out a fresh copy of exactly `Len()` elements). -/
def sliceExpr {α : Type} (s : List α) (lo hi : Int) : GoResult (List α) :=
  if 0 ≤ lo ∧ lo ≤ hi ∧ hi ≤ (s.length : Int) then
    GoResult.ret ((s.drop lo.toNat).take (hi.toNat - lo.toNat))
  else
    GoResult.panic RuntimePanic.sliceBoundsOutOfRange

/-! ## memory/partition.go -/

/-- The partition log: `data` is the `ArrayList[*mq.Message]`. -/
structure Partition where
  data : List Ptr
deriving DecidableEq, Repr

/-- Go `NewPartition`: an empty list (the capacity `defaultPartitionCap = 64` is
not observable). -/
def NewPartition : Partition := { data := [] }

/-- Go `sendMsg`: `msg.Offset = int64(p.data.Len())`, then `p.data.Append(msg)`. -/
def sendMsg (p : Partition) (h : Heap) (msg : Ptr) : Partition × Heap :=
  let h' : Heap := Function.update h msg { h msg with Offset := (p.data.length : Int) }
  ({ data := p.data ++ [msg] }, h')

/-- Go `consumerMsg`:
`wantLen := cursor + limit + 1; length := min(wantLen, p.data.Len());
 res := p.data.AsSlice()[cursor:length]`. -/
def consumerMsg (p : Partition) (cursor limit : Int) : GoResult (List Ptr) :=
  let wantLen := addInt (addInt cursor limit) 1
  let length := min wantLen (p.data.length : Int)
  sliceExpr p.data cursor length

/-! ## Derived notions used to state properties -/

/-- Successive `sendMsg` calls, in list order. -/
def sendAll : Partition × Heap → List Ptr → Partition × Heap
  | st, [] => st
  | st, m :: ms => sendAll (sendMsg st.1 st.2 m) ms

/-- The offset each call of a run of `sendMsg` calls stamps on its message,
read from the message right after that call, in call order. -/
def stampedOffsets : Partition × Heap → List Ptr → List Int
  | _, [] => []
  | st, m :: ms =>
    ((sendMsg st.1 st.2 m).2 m).Offset :: stampedOffsets (sendMsg st.1 st.2 m) ms

/-- The `Offset` fields of the messages a list of references points to. -/
def offsetsOf (h : Heap) (ms : List Ptr) : List Int := ms.map (fun q => (h q).Offset)

/-- The offsets `0, 1, ..., k-1`. -/
def offsetsUpTo (k : Nat) : List Int := (List.range k).map (fun (i : Nat) => (i : Int))

/-- The `Offset` field of the message stored at index `i` of the log. -/
def offsetAt (st : Partition × Heap) (i : Nat) : Option Int :=
  (st.1.data[i]?).map (fun q => (st.2 q).Offset)

/-- What a reader sees in the messages a read hands back: their `Offset`
fields, or the panic. -/
def readOffsets (h : Heap) : GoResult (List Ptr) → GoResult (List Int)
  | GoResult.ret ms => GoResult.ret (offsetsOf h ms)
  | GoResult.panic r => GoResult.panic r

/-! ## memory/producer.go -/

/-- Error values the producer can hand back.  `ErrProducerIsClosed` is
`mqerr.ErrProducerIsClosed`; `Canceled` and `DeadlineExceeded` are the two
values `ctx.Err()` can take; `topicErr` stands for whatever `addMessage`
reports. -/
inductive GoError where
  | ErrProducerIsClosed
  | Canceled
  | DeadlineExceeded
  | topicErr (code : Nat)
deriving DecidableEq, Repr

/-- A `context.Context` as the producer sees it: the value of `ctx.Err()`,
`none` for `nil`. -/
structure Context where
  Err : Option GoError
deriving DecidableEq, Repr

/-- Go `context.Background()`: never cancelled. -/
def Context.background : Context := { Err := none }

/-- Modelled from the spec: the declaration of `mq.ProducerResult` is not
among the sources; the spec names the stamped offset and partition as the
result of a produce. -/
structure ProducerResult where
  Partition : Int
  Offset : Int
deriving DecidableEq, Repr

/-- The composite literal `mq.ProducerResult{}`. -/
def ProducerResult.zero : ProducerResult := { Partition := 0, Offset := 0 }

/-- The producer together with what its topic pointer reaches: `t` is the
state behind `*Topic` (partitions and message memory), `closed` the flag. -/
structure Producer (σ : Type) where
  t : σ
  closed : Bool
deriving DecidableEq, Repr

/-- The signature of `Topic.addMessage(msg, partition ...int64) error`, whose
body is not among the sources: it acts on the topic state and reports an
error or `nil`.  The variadic argument is the list of values passed. -/
abbrev AddMessage (σ : Type) := σ → Ptr → List Int → σ × Option GoError

/-- Go `isClosed`: reads the flag. -/
def Producer.isClosed {σ : Type} (p : Producer σ) : Bool := p.closed

/-- Go `Produce`: the cancellation check, the closed check, then
`p.t.addMessage(m)`; the result is `&mq.ProducerResult{}` with the error of
`addMessage`. -/
def Producer.Produce {σ : Type} (addMessage : AddMessage σ) (p : Producer σ)
    (ctx : Context) (m : Ptr) : Producer σ × Option ProducerResult × Option GoError :=
  if ctx.Err ≠ none then
    (p, none, ctx.Err)
  else if p.isClosed then
    (p, none, some GoError.ErrProducerIsClosed)
  else
    let r := addMessage p.t m []
    ({ p with t := r.1 }, some ProducerResult.zero, r.2)

/-- Go `ProduceWithPartition`; `int64(partition)` is the identity on a 64-bit
`int`. -/
def Producer.ProduceWithPartition {σ : Type} (addMessage : AddMessage σ) (p : Producer σ)
    (ctx : Context) (m : Ptr) (partition : Int) :
    Producer σ × Option ProducerResult × Option GoError :=
  if ctx.Err ≠ none then
    (p, none, ctx.Err)
  else if p.isClosed then
    (p, none, some GoError.ErrProducerIsClosed)
  else
    let r := addMessage p.t m [partition]
    ({ p with t := r.1 }, some ProducerResult.zero, r.2)

/-- Go `Close`: sets the flag, returns `nil`. -/
def Producer.Close {σ : Type} (p : Producer σ) : Producer σ × Option GoError :=
  ({ p with closed := true }, none)

/-- A call on a producer handle. -/
inductive ProducerCall where
  | produce (ctx : Context) (m : Ptr)
  | produceWithPartition (ctx : Context) (m : Ptr) (partition : Int)
  | close
deriving DecidableEq, Repr

/-- The producer after one call. -/
def Producer.step {σ : Type} (addMessage : AddMessage σ) (p : Producer σ) :
    ProducerCall → Producer σ
  | ProducerCall.produce ctx m => (p.Produce addMessage ctx m).1
  | ProducerCall.produceWithPartition ctx m partition =>
    (p.ProduceWithPartition addMessage ctx m partition).1
  | ProducerCall.close => p.Close.1

/-- The producer after a sequence of calls. -/
def Producer.run {σ : Type} (addMessage : AddMessage σ) (p : Producer σ) :
    List ProducerCall → Producer σ
  | [] => p
  | c :: cs => Producer.run addMessage (p.step addMessage c) cs

/-- A topic stand-in for concrete evaluation: its state is the log of
`addMessage` calls, and every call succeeds. -/
def recordingTopic : AddMessage (List (Ptr × List Int)) :=
  fun t m partition => (t ++ [(m, partition)], none)

/-- The eight messages of `TestMQConsumer_OrderOfMessagesWithinAPartition`,
at the addresses 0 to 7: keys "1" (four times) and "4" (four times), values
"1" to "8", as ASCII bytes. -/
def orderTestHeap : Heap := fun q =>
  { Message.zero with
    Key := if q < 4 then [49] else [52]
    Value := [49 + q] }

/-- The call returned a value, it did not panic. -/
def GoResult.returns {α : Type} : GoResult α → Bool
  | GoResult.ret _ => true
  | GoResult.panic _ => false

/-- Outcome of reading a log page by page. -/
inductive Paged where
  | done (batches : List (List Ptr))
  | panicked (r : RuntimePanic)
  | outOfFuel
deriving DecidableEq, Repr

/-- Paged reading of a partition: while the cursor has not reached the length
of the log, call `consumerMsg(c, limit)` and advance the cursor by the number
of messages handed back.  The batches are collected in call order; `fuel`
bounds the number of calls. -/
def pagedRead (p : Partition) (limit : Int) : Nat → Int → Paged
  | 0, c => if c = (p.data.length : Int) then Paged.done [] else Paged.outOfFuel
  | fuel + 1, c =>
    if c = (p.data.length : Int) then Paged.done []
    else
      match consumerMsg p c limit with
      | GoResult.panic r => Paged.panicked r
      | GoResult.ret ms =>
        match pagedRead p limit fuel (c + (ms.length : Int)) with
        | Paged.done bs => Paged.done (ms :: bs)
        | other => other

/-! ## The topic behind the producer -/

/-- Modelled from the spec: `Topic` (memory/topic.go) is not among the
sources.  The spec gives a topic its name, a fixed vector of partitions and a
round-robin counter for keyless traffic; `heap` is the message memory the
partitions point into. -/
structure Topic where
  name : String
  partitions : List Partition
  heap : Heap
  counter : Nat

/-- The error `addMessage` reports for a partition index out of range (the
spec's `InvalidPartition`). -/
def ErrInvalidPartition : GoError := GoError.topicErr 1

/-- Modelled from the spec: the body of `Topic.addMessage` (memory/topic.go)
is not among the sources.  Following the spec's `append(msg, partitionOpt)`:
the partition is the one passed, or, when none is passed, the hasher's choice
for a message with a key and the round-robin counter otherwise; an index out
of range is refused with `InvalidPartition`; otherwise the broker-assigned
fields `Topic` and `PartitionID` are set and the message goes to that
partition's `sendMsg`.  The hasher is the `PartitionIDGetter` of
memory/type.go. -/
def Topic.addMessage (getPartitionID : List Nat → Int) : AddMessage Topic :=
  fun t msg partition =>
    let keyless : Bool := partition.isEmpty && (t.heap msg).Key.isEmpty
    let chosen : Int :=
      match partition with
      | pid :: _ => pid
      | [] =>
        if (t.heap msg).Key.isEmpty then ((t.counter % t.partitions.length : Nat) : Int)
        else getPartitionID (t.heap msg).Key
    if 0 ≤ chosen ∧ chosen < (t.partitions.length : Int) then
      let h1 : Heap :=
        Function.update t.heap msg { t.heap msg with Topic := t.name, PartitionID := chosen }
      let r := sendMsg (t.partitions.getD chosen.toNat NewPartition) h1 msg
      ({ t with
          partitions := t.partitions.set chosen.toNat r.1
          heap := r.2
          counter := if keyless then t.counter + 1 else t.counter }, none)
    else
      (t, some ErrInvalidPartition)

/-- A hasher for concrete evaluation: the first key byte modulo 4. -/
def firstByteHasher : List Nat → Int := fun key => ((key.headD 0 % 4 : Nat) : Int)

/-- The topic of `TestMQProducer_ProduceWithSpecifiedPartitionID`: four empty
partitions. -/
def partitionTestTopic : Topic :=
  { name := "test_topic4"
    partitions := [NewPartition, NewPartition, NewPartition, NewPartition]
    heap := Heap.zero
    counter := 0 }

/-- The six calls of `TestMQProducer_ProduceWithSpecifiedPartitionID`:
messages 0 to 5 sent to the partitions 0, 1, 2, 0, 1, 2. -/
def partitionTestCalls : List ProducerCall :=
  [ProducerCall.produceWithPartition Context.background 0 0,
   ProducerCall.produceWithPartition Context.background 1 1,
   ProducerCall.produceWithPartition Context.background 2 2,
   ProducerCall.produceWithPartition Context.background 3 0,
   ProducerCall.produceWithPartition Context.background 4 1,
   ProducerCall.produceWithPartition Context.background 5 2]

/-- A topic stand-in whose `addMessage` always reports an error and changes
nothing. -/
def refusingTopic : AddMessage Unit := fun t _ _ => (t, some (GoError.topicErr 7))

/-- The producer of the partition test after one message, message 0, has
been sent to partition 1. -/
def afterFirstSend : Producer Topic :=
  ((Producer.mk partitionTestTopic false).ProduceWithPartition
    (Topic.addMessage firstByteHasher) Context.background 0 1).1

/-! ## Arithmetic and list facts -/

theorem wrapInt_of_isInt (x : Int) (hx : isInt x) : wrapInt x = x := by
  unfold isInt minInt maxInt at hx
  unfold wrapInt
  omega

theorem wrapInt_le_self (x : Int) (hx : minInt ≤ x) : wrapInt x ≤ x := by
  unfold minInt at hx
  unfold wrapInt
  omega

theorem addInt_addInt_one (a b : Int) : addInt (addInt a b) 1 = wrapInt (a + b + 1) := by
  unfold addInt wrapInt
  omega

theorem sendAll_data (ms : List Ptr) :
    ∀ st : Partition × Heap, (sendAll st ms).1.data = st.1.data ++ ms := by
  induction ms with
  | nil => intro st; simp [sendAll]
  | cons m ms ih => intro st; simp [sendAll, ih, sendMsg]

theorem sendAll_heap_of_not_mem (ms : List Ptr) (q : Ptr) (hq : q ∉ ms) :
    ∀ st : Partition × Heap, (sendAll st ms).2 q = st.2 q := by
  induction ms with
  | nil => intro st; simp [sendAll]
  | cons m ms ih =>
    intro st
    have h1 : q ≠ m := fun e => hq (by simp [e])
    have h2 : q ∉ ms := fun e => hq (by simp [e])
    simp [sendAll, ih h2, sendMsg, Function.update_noteq h1]

theorem stampedOffsets_eq (ms : List Ptr) :
    ∀ st : Partition × Heap,
      stampedOffsets st ms =
        (List.range ms.length).map (fun i => ((st.1.data.length + i : Nat) : Int)) := by
  induction ms with
  | nil => intro st; simp [stampedOffsets]
  | cons m ms ih =>
    intro st
    simp only [stampedOffsets, ih, List.length_cons, List.range_succ_eq_map, List.map_cons,
      List.map_map]
    refine congrArg₂ _ ?_ ?_
    · simp [sendMsg]
    · apply List.map_congr_left
      intro i _
      simp [sendMsg]
      omega

theorem sendMsg_offsetAt (st : Partition × Heap) (m : Ptr) (hm : m ∉ st.1.data)
    (inv : ∀ i, i < st.1.data.length → offsetAt st i = some (i : Int)) :
    ∀ i, i < (sendMsg st.1 st.2 m).1.data.length →
      offsetAt (sendMsg st.1 st.2 m) i = some (i : Int) := by
  intro i hi
  simp only [sendMsg, List.length_append, List.length_singleton] at hi
  rcases Nat.lt_or_ge i st.1.data.length with hlt | hge
  · have h0 := inv i hlt
    have hq : st.1.data[i] ≠ m := fun e => hm (e ▸ List.getElem_mem hlt)
    simp only [offsetAt, List.getElem?_eq_getElem hlt, Option.map_some'] at h0
    simp only [offsetAt, sendMsg, List.getElem?_append_left hlt, List.getElem?_eq_getElem hlt,
      Option.map_some', Function.update_noteq hq]
    exact h0
  · have hie : i = st.1.data.length := by omega
    subst hie
    simp [offsetAt, sendMsg]

theorem sendAll_offsetAt (ms : List Ptr) :
    ∀ st : Partition × Heap, ms.Nodup → (∀ q, q ∈ ms → q ∉ st.1.data) →
      (∀ i, i < st.1.data.length → offsetAt st i = some (i : Int)) →
      ∀ i, i < (sendAll st ms).1.data.length → offsetAt (sendAll st ms) i = some (i : Int) := by
  induction ms with
  | nil => intro st _ _ inv i hi; exact inv i hi
  | cons m ms ih =>
    intro st hnd hdis inv
    rw [List.nodup_cons] at hnd
    simp only [sendAll]
    apply ih _ hnd.2
    · intro q hq
      have h1 : q ∉ st.1.data := hdis q (List.mem_cons_of_mem _ hq)
      have h2 : q ≠ m := fun e => hnd.1 (e ▸ hq)
      simp [sendMsg, h1, h2]
    · exact sendMsg_offsetAt st m (hdis m (List.mem_cons_self _ _)) inv

theorem sendAll_offsetsOf (h0 : Heap) (ms : List Ptr) (hnd : ms.Nodup) :
    offsetsOf (sendAll (NewPartition, h0) ms).2 ms = offsetsUpTo ms.length := by
  have hdata : (sendAll (NewPartition, h0) ms).1.data = ms := by
    simp [sendAll_data, NewPartition]
  apply List.ext_getElem (by simp [offsetsOf, offsetsUpTo])
  intro i h1 h2
  have hi : i < ms.length := by simpa [offsetsOf] using h1
  have h3 := sendAll_offsetAt ms (NewPartition, h0) hnd (by simp [NewPartition])
    (by simp [NewPartition]) i (by rw [hdata]; exact hi)
  simp only [offsetAt, hdata, List.getElem?_eq_getElem hi, Option.map_some',
    Option.some.injEq] at h3
  simp [offsetsOf, offsetsUpTo, h3]

theorem sliceExpr_panic_of_lt {α : Type} (s : List α) (lo hi : Int) (h : hi < lo) :
    sliceExpr s lo hi = GoResult.panic RuntimePanic.sliceBoundsOutOfRange := by
  unfold sliceExpr
  rw [if_neg]
  intro hc
  omega

theorem consumerMsg_in_range (p : Partition) (cursor limit : Int) (hc : 0 ≤ cursor)
    (hcl : cursor ≤ (p.data.length : Int)) (hl : 0 ≤ limit)
    (hov : cursor + limit + 1 ≤ maxInt) :
    consumerMsg p cursor limit =
      GoResult.ret ((p.data.drop cursor.toNat).take (limit.toNat + 1)) := by
  have hw : wrapInt (cursor + limit + 1) = cursor + limit + 1 :=
    wrapInt_of_isInt _ ⟨by unfold minInt; omega, hov⟩
  unfold consumerMsg
  simp only [addInt_addInt_one, hw]
  unfold sliceExpr
  rw [if_pos (by omega)]
  congr 1
  rw [List.take_eq_take, List.length_drop]
  omega

theorem consumerMsg_append_of_window (data : List Ptr) (m : Ptr) (cursor limit : Int)
    (hc : 0 ≤ cursor) (hl : minInt ≤ limit)
    (hw : cursor + limit + 1 ≤ (data.length : Int)) :
    consumerMsg { data := data ++ [m] } cursor limit = consumerMsg { data := data } cursor limit := by
  have h1 : wrapInt (cursor + limit + 1) ≤ (data.length : Int) :=
    le_trans (wrapInt_le_self _ (by omega)) hw
  unfold consumerMsg
  simp only [addInt_addInt_one, List.length_append, List.length_singleton]
  generalize wrapInt (cursor + limit + 1) = w at h1
  have e1 : min w ((data.length + 1 : Nat) : Int) = w := by omega
  have e2 : min w (data.length : Int) = w := by omega
  rw [e1, e2]
  unfold sliceExpr
  by_cases hcw : 0 ≤ cursor ∧ cursor ≤ w
  · rw [if_pos (by simp only [List.length_append, List.length_singleton]; omega),
      if_pos (by omega)]
    congr 1
    rw [List.drop_append_of_le_length (by omega),
      List.take_append_of_le_length (by rw [List.length_drop]; omega)]
  · rw [if_neg (by omega), if_neg (by omega)]

theorem consumerMsg_mem (p : Partition) (cursor limit : Int) (ms : List Ptr)
    (hr : consumerMsg p cursor limit = GoResult.ret ms) : ∀ q, q ∈ ms → q ∈ p.data := by
  unfold consumerMsg sliceExpr at hr
  simp only at hr
  split at hr
  · simp only [GoResult.ret.injEq] at hr
    intro q hq
    rw [← hr] at hq
    exact List.mem_of_mem_drop (List.mem_of_mem_take hq)
  · simp at hr

theorem offsetsOf_sendMsg_of_not_mem (p : Partition) (h : Heap) (m : Ptr) (ms : List Ptr)
    (hm : m ∉ ms) : offsetsOf (sendMsg p h m).2 ms = offsetsOf h ms := by
  unfold offsetsOf
  apply List.map_congr_left
  intro q hq
  have hne : q ≠ m := fun e => hm (e ▸ hq)
  simp [sendMsg, Function.update_noteq hne]

theorem Producer.run_closed {σ : Type} (addMessage : AddMessage σ) (cs : List ProducerCall) :
    ∀ p : Producer σ, p.closed = true → (Producer.run addMessage p cs).closed = true := by
  induction cs with
  | nil => intro p hp; exact hp
  | cons c cs ih =>
    intro p hp
    simp only [Producer.run]
    apply ih
    cases c with
    | produce ctx m =>
      simp only [Producer.step, Producer.Produce, Producer.isClosed, hp]
      split <;> simp [hp]
    | produceWithPartition ctx m partition =>
      simp only [Producer.step, Producer.ProduceWithPartition, Producer.isClosed, hp]
      split <;> simp [hp]
    | close => simp [Producer.step, Producer.Close]

/-! ## The partition log -/

/-- C1: on a partition holding n messages, sendMsg(m) stamps m.Offset with n
and appends m as the last entry, so the partition then holds n+1 messages;
hence the calls of any run of sendMsg on a fresh partition stamp the offsets
0, 1, ..., k-1 in call order. -/
theorem sendMsg_assigns_successive_offsets (p : Partition) (h : Heap) (m : Ptr) :
    ((sendMsg p h m).2 m).Offset = (p.data.length : Int) ∧
    (sendMsg p h m).1.data = p.data ++ [m] ∧
    (sendMsg p h m).1.data.getLast? = some m ∧
    (sendMsg p h m).1.data.length = p.data.length + 1 ∧
    ∀ (h0 : Heap) (ms : List Ptr),
      stampedOffsets (NewPartition, h0) ms = offsetsUpTo ms.length := by
  refine ⟨by simp [sendMsg], by simp [sendMsg], by simp [sendMsg], by simp [sendMsg], ?_⟩
  intro h0 ms
  rw [stampedOffsets_eq]
  unfold offsetsUpTo
  apply List.map_congr_left
  intro i _
  simp [NewPartition]

/-- C2 fails as stated: a message reference sent twice is stored at indices 0
and 1, and the second call overwrites the offset of the one message both
entries point to, so the entry at index 0 carries offset 1. -/
theorem offset_invariant_counterexample :
    (sendAll (NewPartition, Heap.zero) [7, 7]).1.data = [7, 7] ∧
    offsetAt (sendAll (NewPartition, Heap.zero) [7, 7]) 0 = some 1 ∧
    ¬ (∀ (h0 : Heap) (ms : List Ptr) (i : Nat),
        i < (sendAll (NewPartition, h0) ms).1.data.length →
        offsetAt (sendAll (NewPartition, h0) ms) i = some (i : Int)) := by
  have h1 : offsetAt (sendAll (NewPartition, Heap.zero) [7, 7]) 0 = some 1 := by
    simp [offsetAt, sendAll, sendMsg, NewPartition]
  refine ⟨by simp [sendAll, sendMsg, NewPartition], h1, ?_⟩
  intro hall
  have h2 := hall Heap.zero [7, 7] 0 (by simp [sendAll, sendMsg, NewPartition])
  rw [h1] at h2
  simp at h2

/-- C2 (amended): in every partition state reached from NewPartition by
sendMsg calls on pairwise distinct messages, the message stored at index i
has Offset i, for every index i below the length. -/
theorem offset_invariant_of_distinct (h0 : Heap) (ms : List Ptr) (hnd : ms.Nodup)
    (i : Nat) (hi : i < (sendAll (NewPartition, h0) ms).1.data.length) :
    offsetAt (sendAll (NewPartition, h0) ms) i = some (i : Int) :=
  sendAll_offsetAt ms (NewPartition, h0) hnd (by simp [NewPartition])
    (by simp [NewPartition]) i hi

/-- C2 (amended), at three distinct messages, index 2. -/
theorem offset_invariant_of_distinct_witness :
    [4, 9, 2].Nodup ∧ 2 < (sendAll (NewPartition, Heap.zero) [4, 9, 2]).1.data.length ∧
    offsetAt (sendAll (NewPartition, Heap.zero) [4, 9, 2]) 2 = some ((2 : Nat) : Int) :=
  ⟨by decide, by decide,
    offset_invariant_of_distinct Heap.zero [4, 9, 2] (by decide) 2 (by decide)⟩

/-- C3 fails as stated, twice over.  With limit = MaxInt64 the sum
cursor + limit + 1 wraps to MinInt64 and the slice expression panics, even on
the empty log; and a message reference sent twice is read back twice with
the offset of the second send, so the offsets read are 1, 1 and not 0, 1. -/
theorem fifo_read_counterexample :
    isInt maxInt ∧ (([] : List Ptr).length : Int) ≤ maxInt ∧
    consumerMsg (sendAll (NewPartition, Heap.zero) []).1 0 maxInt =
      GoResult.panic RuntimePanic.sliceBoundsOutOfRange ∧
    consumerMsg (sendAll (NewPartition, Heap.zero) [7, 7]).1 0 2 = GoResult.ret [7, 7] ∧
    offsetsOf (sendAll (NewPartition, Heap.zero) [7, 7]).2 [7, 7] = [1, 1] ∧
    offsetsUpTo 2 = [0, 1] ∧
    ¬ (∀ (h0 : Heap) (ms : List Ptr) (limit : Int), isInt limit → (ms.length : Int) ≤ limit →
        consumerMsg (sendAll (NewPartition, h0) ms).1 0 limit = GoResult.ret ms ∧
        offsetsOf (sendAll (NewPartition, h0) ms).2 ms = offsetsUpTo ms.length) := by
  have h1 : consumerMsg (sendAll (NewPartition, Heap.zero) []).1 0 maxInt =
      GoResult.panic RuntimePanic.sliceBoundsOutOfRange := by decide
  refine ⟨by decide, by decide, h1, by decide, ?_, by decide, ?_⟩
  · simp [offsetsOf, sendAll, sendMsg, NewPartition]
  · intro hall
    have h2 := (hall Heap.zero [] maxInt (by decide) (by decide)).1
    rw [h1] at h2
    simp at h2

/-- C3 (amended): pairwise distinct messages m1..mk sent in that order to a
fresh partition are read back by consumerMsg(0, limit), for every limit with
k <= limit < MaxInt64, exactly as m1..mk in send order, carrying the offsets
0..k-1. -/
theorem fifo_read_of_distinct (h0 : Heap) (ms : List Ptr) (limit : Int) (hnd : ms.Nodup)
    (hk : (ms.length : Int) ≤ limit) (hlim : limit < maxInt) :
    consumerMsg (sendAll (NewPartition, h0) ms).1 0 limit = GoResult.ret ms ∧
    offsetsOf (sendAll (NewPartition, h0) ms).2 ms = offsetsUpTo ms.length := by
  refine ⟨?_, sendAll_offsetsOf h0 ms hnd⟩
  have hdata : (sendAll (NewPartition, h0) ms).1.data = ms := by
    simp [sendAll_data, NewPartition]
  rw [consumerMsg_in_range _ 0 limit (le_refl _) (by omega) (by omega) (by omega), hdata]
  congr 1
  simp only [Int.toNat_zero, List.drop_zero]
  exact List.take_of_length_le (by omega)

/-- C3 (amended), at the test: the eight messages read back in order, with
the values "1" to "8" and the offsets 0 to 7. -/
theorem fifo_read_of_distinct_witness :
    [0, 1, 2, 3, 4, 5, 6, 7].Nodup ∧
    (([0, 1, 2, 3, 4, 5, 6, 7] : List Ptr).length : Int) ≤ 25 ∧ (25 : Int) < maxInt ∧
    [0, 1, 2, 3, 4, 5, 6, 7].map (fun q => (orderTestHeap q).Value) =
      [[49], [50], [51], [52], [53], [54], [55], [56]] ∧
    (consumerMsg (sendAll (NewPartition, orderTestHeap) [0, 1, 2, 3, 4, 5, 6, 7]).1 0 25 =
        GoResult.ret [0, 1, 2, 3, 4, 5, 6, 7] ∧
      offsetsOf (sendAll (NewPartition, orderTestHeap) [0, 1, 2, 3, 4, 5, 6, 7]).2
          [0, 1, 2, 3, 4, 5, 6, 7] =
        offsetsUpTo ([0, 1, 2, 3, 4, 5, 6, 7] : List Ptr).length) :=
  ⟨by decide, by decide, by decide, by decide,
    fifo_read_of_distinct orderTestHeap [0, 1, 2, 3, 4, 5, 6, 7] 25 (by decide) (by decide)
      (by decide)⟩

/-- C4, the code at a log of three messages: consumerMsg(0, 1) hands back two
messages, the second with offset 1, outside the window [0, 1). -/
theorem consumerMsg_reads_one_past_limit :
    consumerMsg (sendAll (NewPartition, Heap.zero) [0, 1, 2]).1 0 1 = GoResult.ret [0, 1] ∧
    readOffsets (sendAll (NewPartition, Heap.zero) [0, 1, 2]).2
        (consumerMsg (sendAll (NewPartition, Heap.zero) [0, 1, 2]).1 0 1) =
      GoResult.ret [0, 1] ∧
    ¬ (([0, 1] : List Ptr).length ≤ 1) := by
  refine ⟨by decide, ?_, by decide⟩
  have h1 : consumerMsg (sendAll (NewPartition, Heap.zero) [0, 1, 2]).1 0 1 =
      GoResult.ret [0, 1] := by decide
  rw [h1]
  simp [readOffsets, offsetsOf, sendAll, sendMsg, NewPartition]

/-- C5 fails as stated: on the empty log, consumerMsg(1, 0) panics; it hands
nothing back to its caller, no error either. -/
theorem invalid_offset_counterexample :
    (NewPartition.data.length : Int) < 1 ∧
    consumerMsg NewPartition 1 0 = GoResult.panic RuntimePanic.sliceBoundsOutOfRange ∧
    ¬ (∃ v, consumerMsg NewPartition 1 0 = GoResult.ret v) := by
  have h1 : consumerMsg NewPartition 1 0 =
      GoResult.panic RuntimePanic.sliceBoundsOutOfRange := by decide
  refine ⟨by decide, h1, ?_⟩
  rintro ⟨v, hv⟩
  rw [h1] at hv
  simp at hv

/-- C5 (amended): for every cursor greater than the partition's length and
every limit, consumerMsg(cursor, limit) does not return; it panics with the
slice-bounds run-time panic. -/
theorem consumerMsg_panics_beyond_length (p : Partition) (cursor limit : Int)
    (hc : (p.data.length : Int) < cursor) :
    consumerMsg p cursor limit = GoResult.panic RuntimePanic.sliceBoundsOutOfRange := by
  unfold consumerMsg
  exact sliceExpr_panic_of_lt _ _ _ (by omega)

/-- C5 (amended), at a log of two messages and cursor 3. -/
theorem consumerMsg_panics_beyond_length_witness :
    (((Partition.mk [0, 1]).data.length : Nat) : Int) < 3 ∧
    consumerMsg (Partition.mk [0, 1]) 3 5 =
      GoResult.panic RuntimePanic.sliceBoundsOutOfRange :=
  ⟨by decide, consumerMsg_panics_beyond_length (Partition.mk [0, 1]) 3 5 (by decide)⟩

/-- C6 fails as stated: with limit = MaxInt64 the sum cursor + limit + 1
wraps to MinInt64, and the read at cursor = length (here 0, the empty log)
panics instead of handing back an empty slice. -/
theorem read_at_end_counterexample :
    (0 : Int) ≤ maxInt ∧ isInt maxInt ∧
    consumerMsg NewPartition (NewPartition.data.length : Int) maxInt =
      GoResult.panic RuntimePanic.sliceBoundsOutOfRange ∧
    ¬ (∀ (p : Partition) (limit : Int), 0 ≤ limit → isInt limit →
        consumerMsg p (p.data.length : Int) limit = GoResult.ret []) := by
  have h1 : consumerMsg NewPartition (NewPartition.data.length : Int) maxInt =
      GoResult.panic RuntimePanic.sliceBoundsOutOfRange := by decide
  refine ⟨by decide, by decide, h1, ?_⟩
  intro hall
  have h2 := hall NewPartition maxInt (by decide) (by decide)
  rw [h1] at h2
  simp at h2

/-- C6 (amended): for every partition and every limit >= 0 for which
length + limit + 1 does not exceed MaxInt64, consumerMsg(cursor, limit) with
cursor equal to the partition's length returns an empty slice and does not
panic. -/
theorem read_at_end_is_empty (p : Partition) (limit : Int) (hl : 0 ≤ limit)
    (hov : (p.data.length : Int) + limit + 1 ≤ maxInt) :
    consumerMsg p (p.data.length : Int) limit = GoResult.ret [] := by
  rw [consumerMsg_in_range p _ limit (by omega) (le_refl _) hl hov]
  simp

/-- C6 (amended), at a log of three messages and limit 25. -/
theorem read_at_end_is_empty_witness :
    (0 : Int) ≤ 25 ∧ (((Partition.mk [4, 9, 2]).data.length : Nat) : Int) + 25 + 1 ≤ maxInt ∧
    consumerMsg (Partition.mk [4, 9, 2]) (((Partition.mk [4, 9, 2]).data.length : Nat) : Int) 25 =
      GoResult.ret [] :=
  ⟨by decide, by decide, read_at_end_is_empty (Partition.mk [4, 9, 2]) 25 (by decide) (by decide)⟩

/-- C7 fails as stated: when the message appended is one the log already
holds, the append overwrites that entry's offset.  On the log holding message
7 at offset 0, sendMsg(7) leaves the first entry in place but its offset
becomes 1, and the read consumerMsg(0, 0), whose window lies below the old
length 1, shows offset 0 before and offset 1 after. -/
theorem append_frame_counterexample :
    (sendMsg NewPartition Heap.zero 7).1.data = [7] ∧
    offsetsOf (sendMsg NewPartition Heap.zero 7).2 [7] = [0] ∧
    offsetsOf (sendMsg (sendMsg NewPartition Heap.zero 7).1
      (sendMsg NewPartition Heap.zero 7).2 7).2 [7] = [1] ∧
    (0 : Int) + 0 + 1 ≤ ((sendMsg NewPartition Heap.zero 7).1.data.length : Int) ∧
    readOffsets (sendMsg NewPartition Heap.zero 7).2
      (consumerMsg (sendMsg NewPartition Heap.zero 7).1 0 0) = GoResult.ret [0] ∧
    readOffsets
      (sendMsg (sendMsg NewPartition Heap.zero 7).1 (sendMsg NewPartition Heap.zero 7).2 7).2
      (consumerMsg
        (sendMsg (sendMsg NewPartition Heap.zero 7).1 (sendMsg NewPartition Heap.zero 7).2 7).1
        0 0) = GoResult.ret [1] ∧
    ¬ (∀ (p : Partition) (h : Heap) (m : Ptr),
        offsetsOf (sendMsg p h m).2 p.data = offsetsOf h p.data) := by
  have hr : ∀ d : List Ptr, consumerMsg (Partition.mk (7 :: d)) 0 0 = GoResult.ret [7] := by
    intro d
    rw [consumerMsg_in_range _ 0 0 (le_refl _) (by simp only [List.length_cons]; omega)
      (le_refl _) (by decide)]
    simp
  have h0 : offsetsOf (sendMsg NewPartition Heap.zero 7).2 [7] = [0] := by
    simp [offsetsOf, sendMsg, NewPartition]
  have h1 : offsetsOf (sendMsg (sendMsg NewPartition Heap.zero 7).1
      (sendMsg NewPartition Heap.zero 7).2 7).2 [7] = [1] := by
    simp [offsetsOf, sendMsg, NewPartition]
  refine ⟨by simp [sendMsg, NewPartition], h0, h1, by simp [sendMsg, NewPartition], ?_, ?_, ?_⟩
  · have e : (sendMsg NewPartition Heap.zero 7).1 = Partition.mk (7 :: []) := by
      simp [sendMsg, NewPartition]
    rw [e, hr, readOffsets, h0]
  · have e : (sendMsg (sendMsg NewPartition Heap.zero 7).1
        (sendMsg NewPartition Heap.zero 7).2 7).1 = Partition.mk (7 :: [7]) := by
      simp [sendMsg, NewPartition]
    rw [e, hr, readOffsets, h1]
  · intro hall
    have h2 := hall (sendMsg NewPartition Heap.zero 7).1 (sendMsg NewPartition Heap.zero 7).2 7
    have e : (sendMsg NewPartition Heap.zero 7).1.data = [7] := by simp [sendMsg, NewPartition]
    rw [e, h1, h0] at h2
    simp at h2

/-- C7 (amended): for every partition holding n messages and every message m
that the partition does not already hold, sendMsg(m) leaves the first n
entries and their offsets unchanged, so every read consumerMsg(cursor, limit)
with 0 <= cursor and cursor + limit + 1 <= n has the same outcome, with the
same messages and the same offsets, before and after the append. -/
theorem append_frame_of_fresh (p : Partition) (h : Heap) (m : Ptr) (hm : m ∉ p.data)
    (cursor limit : Int) (hc : 0 ≤ cursor) (hl : isInt limit)
    (hw : cursor + limit + 1 ≤ (p.data.length : Int)) :
    (sendMsg p h m).1.data.take p.data.length = p.data ∧
    offsetsOf (sendMsg p h m).2 p.data = offsetsOf h p.data ∧
    consumerMsg (sendMsg p h m).1 cursor limit = consumerMsg p cursor limit ∧
    readOffsets (sendMsg p h m).2 (consumerMsg (sendMsg p h m).1 cursor limit) =
      readOffsets h (consumerMsg p cursor limit) := by
  have hread : consumerMsg (sendMsg p h m).1 cursor limit = consumerMsg p cursor limit :=
    consumerMsg_append_of_window p.data m cursor limit hc hl.1 hw
  refine ⟨by simp [sendMsg], offsetsOf_sendMsg_of_not_mem p h m p.data hm, hread, ?_⟩
  rw [hread]
  cases hres : consumerMsg p cursor limit with
  | ret ms =>
    have hsub := consumerMsg_mem p cursor limit ms hres
    simp only [readOffsets]
    rw [offsetsOf_sendMsg_of_not_mem p h m ms (fun hmem => hm (hsub m hmem))]
  | panic r => simp [readOffsets]

/-- C7 (amended), at the log of messages 4, 9, 2 with offsets 0, 1, 2, the
fresh message 5 and the read consumerMsg(1, 1). -/
theorem append_frame_of_fresh_witness :
    (5 ∉ (sendAll (NewPartition, Heap.zero) [4, 9, 2]).1.data) ∧ (0 : Int) ≤ 1 ∧ isInt 1 ∧
    ((1 : Int) + 1 + 1 ≤ ((sendAll (NewPartition, Heap.zero) [4, 9, 2]).1.data.length : Int)) ∧
    consumerMsg (sendAll (NewPartition, Heap.zero) [4, 9, 2]).1 1 1 = GoResult.ret [9, 2] ∧
    readOffsets
      (sendMsg (sendAll (NewPartition, Heap.zero) [4, 9, 2]).1
        (sendAll (NewPartition, Heap.zero) [4, 9, 2]).2 5).2
      (consumerMsg
        (sendMsg (sendAll (NewPartition, Heap.zero) [4, 9, 2]).1
          (sendAll (NewPartition, Heap.zero) [4, 9, 2]).2 5).1 1 1) =
    readOffsets (sendAll (NewPartition, Heap.zero) [4, 9, 2]).2
      (consumerMsg (sendAll (NewPartition, Heap.zero) [4, 9, 2]).1 1 1) :=
  ⟨by decide, by decide, by decide, by decide, by decide,
    (append_frame_of_fresh (sendAll (NewPartition, Heap.zero) [4, 9, 2]).1
      (sendAll (NewPartition, Heap.zero) [4, 9, 2]).2 5 (by decide) 1 1 (by decide) (by decide)
      (by decide)).2.2.2⟩

/-! ## The producer -/

/-- C8: once Close has been called, after any further sequence of Produce,
ProduceWithPartition and Close calls, Produce and ProduceWithPartition with a
context that is not cancelled return a nil result and ErrProducerIsClosed,
and leave the producer as it was. -/
theorem closed_producer_stays_closed {σ : Type} (addMessage : AddMessage σ) (p : Producer σ)
    (cs : List ProducerCall) (ctx : Context) (m : Ptr) (partition : Int)
    (hctx : ctx.Err = none) :
    (Producer.run addMessage p.Close.1 cs).Produce addMessage ctx m =
      (Producer.run addMessage p.Close.1 cs, none, some GoError.ErrProducerIsClosed) ∧
    (Producer.run addMessage p.Close.1 cs).ProduceWithPartition addMessage ctx m partition =
      (Producer.run addMessage p.Close.1 cs, none, some GoError.ErrProducerIsClosed) := by
  have hcl : (Producer.run addMessage p.Close.1 cs).closed = true :=
    Producer.run_closed addMessage cs _ (by simp [Producer.Close])
  constructor
  · simp [Producer.Produce, Producer.isClosed, hctx, hcl]
  · simp [Producer.ProduceWithPartition, Producer.isClosed, hctx, hcl]

/-- C8, at the test: Produce and ProduceWithPartition of a message with the
background context on a producer closed and then called again. -/
theorem closed_producer_stays_closed_witness :
    Context.background.Err = none ∧
    (Producer.run recordingTopic (Producer.mk [] false).Close.1
        [ProducerCall.produce Context.background 3, ProducerCall.close]).Produce
        recordingTopic Context.background 0 =
      (Producer.mk [] true, none, some GoError.ErrProducerIsClosed) ∧
    (Producer.run recordingTopic (Producer.mk [] false).Close.1
        [ProducerCall.produce Context.background 3, ProducerCall.close]).ProduceWithPartition
        recordingTopic Context.background 0 0 =
      (Producer.mk [] true, none, some GoError.ErrProducerIsClosed) :=
  ⟨rfl,
    closed_producer_stays_closed recordingTopic (Producer.mk [] false)
      [ProducerCall.produce Context.background 3, ProducerCall.close] Context.background 0 0 rfl⟩

/-- C9: on every producer, open or closed, Produce and ProduceWithPartition
with an already-cancelled context return a nil result and the context's
error, leaving the producer as it was; on a closed producer the error is the
context's, so the cancellation check comes before the closed check. -/
theorem cancelled_context_is_reported_first {σ : Type} (addMessage : AddMessage σ)
    (p : Producer σ) (ctx : Context) (e : GoError) (m : Ptr) (partition : Int)
    (hctx : ctx.Err = some e) :
    p.Produce addMessage ctx m = (p, none, some e) ∧
    p.ProduceWithPartition addMessage ctx m partition = (p, none, some e) ∧
    p.Close.1.Produce addMessage ctx m = (p.Close.1, none, some e) ∧
    p.Close.1.ProduceWithPartition addMessage ctx m partition = (p.Close.1, none, some e) := by
  simp [Producer.Produce, Producer.ProduceWithPartition, hctx]

/-- C9, at an open producer and a context cancelled with Canceled. -/
theorem cancelled_context_is_reported_first_witness :
    (Context.mk (some GoError.Canceled)).Err = some GoError.Canceled ∧
    (Producer.mk [] false).Produce recordingTopic (Context.mk (some GoError.Canceled)) 0 =
      (Producer.mk [] false, none, some GoError.Canceled) ∧
    (Producer.mk [] false).Close.1.Produce recordingTopic
        (Context.mk (some GoError.Canceled)) 0 =
      ((Producer.mk [] false).Close.1, none, some GoError.Canceled) :=
  ⟨rfl,
    (cancelled_context_is_reported_first recordingTopic (Producer.mk [] false)
      (Context.mk (some GoError.Canceled)) GoError.Canceled 0 0 rfl).1,
    (cancelled_context_is_reported_first recordingTopic (Producer.mk [] false)
      (Context.mk (some GoError.Canceled)) GoError.Canceled 0 0 rfl).2.2.1⟩

/-- C10: Close returns nil on every call, and the producer after two Close
calls equals the producer after one. -/
theorem close_is_idempotent {σ : Type} (p : Producer σ) :
    p.Close.2 = none ∧ p.Close.1.Close.2 = none ∧ p.Close.1.Close.1 = p.Close.1 ∧
    p.Close.1.closed = true := by
  simp [Producer.Close]

/-! ## Further facts about reads -/

theorem consumerMsg_wantLen (p : Partition) (cursor limit : Int) :
    consumerMsg p cursor limit =
      sliceExpr p.data cursor (min (wrapInt (cursor + limit + 1)) (p.data.length : Int)) := by
  unfold consumerMsg
  simp only [addInt_addInt_one]

theorem sliceExpr_returns_iff {α : Type} (s : List α) (lo hi : Int) :
    (sliceExpr s lo hi).returns = true ↔ 0 ≤ lo ∧ lo ≤ hi ∧ hi ≤ (s.length : Int) := by
  unfold sliceExpr
  by_cases h : 0 ≤ lo ∧ lo ≤ hi ∧ hi ≤ (s.length : Int)
  · simp [h, GoResult.returns]
  · simp [h, GoResult.returns]

theorem take_length_self {α : Type} (l : List α) (a : Nat) :
    (l.take a) ++ l.drop (l.take a).length = l := by
  have h : l.take a = l.take (l.take a).length := by
    rw [List.take_eq_take, List.length_take]
    omega
  exact (congrArg (fun x => x ++ l.drop (l.take a).length) h).trans
    (List.take_append_drop _ _)

theorem pagedRead_done (p : Partition) (limit : Int) (hl : 0 ≤ limit)
    (hov : (p.data.length : Int) + limit ≤ maxInt) :
    ∀ (fuel : Nat) (c : Int), 0 ≤ c → c ≤ (p.data.length : Int) →
      (p.data.length : Int) - c ≤ (fuel : Int) →
      ∃ bs, pagedRead p limit fuel c = Paged.done bs ∧ bs.flatten = p.data.drop c.toNat ∧
        (∀ b, b ∈ bs → b ≠ []) := by
  intro fuel
  induction fuel with
  | zero =>
    intro c h0 h1 h2
    have hc : c = (p.data.length : Int) := by omega
    refine ⟨[], by simp [pagedRead, hc], ?_, by simp⟩
    subst hc
    simp
  | succ f ih =>
    intro c h0 h1 h2
    by_cases hc : c = (p.data.length : Int)
    · refine ⟨[], by simp [pagedRead, hc], ?_, by simp⟩
      subst hc
      simp
    · have hread := consumerMsg_in_range p c limit h0 h1 hl (by omega)
      have hlen : (((p.data.drop c.toNat).take (limit.toNat + 1)).length : Int) =
          min (limit + 1) ((p.data.length : Int) - c) := by
        rw [List.length_take, List.length_drop]
        omega
      obtain ⟨bs, hb1, hb2, hb3⟩ :=
        ih (c + (((p.data.drop c.toNat).take (limit.toNat + 1)).length : Int))
          (by omega) (by omega) (by omega)
      refine ⟨(p.data.drop c.toNat).take (limit.toNat + 1) :: bs, ?_, ?_, ?_⟩
      · simp only [pagedRead, if_neg hc, hread, hb1]
      · have hnat : (c + (((p.data.drop c.toNat).take (limit.toNat + 1)).length : Int)).toNat =
            c.toNat + ((p.data.drop c.toNat).take (limit.toNat + 1)).length := by omega
        rw [List.flatten_cons, hb2, hnat, ← List.drop_drop]
        exact take_length_self _ _
      · intro b hb
        rcases List.mem_cons.mp hb with e | hmem
        · intro hnil
          rw [e.symm.trans hnil] at hlen
          simp only [List.length_nil, Nat.cast_zero] at hlen
          omega
        · exact hb3 b hmem

theorem pagedRead_more_fuel (p : Partition) (limit : Int) :
    ∀ (fuel : Nat) (c : Int) (bs : List (List Ptr)), pagedRead p limit fuel c = Paged.done bs →
      ∀ k : Nat, pagedRead p limit (fuel + k) c = Paged.done bs := by
  intro fuel
  induction fuel with
  | zero =>
    intro c bs h k
    by_cases hc : c = (p.data.length : Int)
    · simp only [pagedRead, if_pos hc] at h
      cases k with
      | zero => simp only [Nat.add_zero, pagedRead, if_pos hc]; exact h
      | succ k => simp only [Nat.zero_add, pagedRead, if_pos hc]; exact h
    · simp [pagedRead, hc] at h
  | succ f ih =>
    intro c bs h k
    have hk : f + 1 + k = (f + k) + 1 := by omega
    rw [hk]
    by_cases hc : c = (p.data.length : Int)
    · simp only [pagedRead, if_pos hc] at h
      simp only [pagedRead, if_pos hc]
      exact h
    · simp only [pagedRead, if_neg hc] at h
      simp only [pagedRead, if_neg hc]
      cases hr : consumerMsg p c limit with
      | panic r => simp [hr] at h
      | ret ms =>
        simp only [hr] at h
        cases hrest : pagedRead p limit f (c + (ms.length : Int)) with
        | done bs2 =>
          simp only [hrest] at h
          simp only [ih _ _ hrest k]
          exact h
        | panicked r => simp [hrest] at h
        | outOfFuel => simp [hrest] at h

theorem pagedRead_not_done_of_panic (p : Partition) (limit : Int) (c : Int)
    (hc : c ≠ (p.data.length : Int)) (r : RuntimePanic)
    (hp : consumerMsg p c limit = GoResult.panic r) :
    ∀ (fuel : Nat) (bs : List (List Ptr)), pagedRead p limit fuel c ≠ Paged.done bs := by
  intro fuel bs
  cases fuel with
  | zero => simp [pagedRead, hc]
  | succ f => simp [pagedRead, hc, hp]

/-! ## The producer: rejected and accepted calls -/

/-- C11 fails as stated: on a closed producer, Produce and
ProduceWithPartition with a cancelled context return the context's error
(here Canceled), not ErrProducerIsClosed. -/
theorem closed_producer_cancelled_counterexample :
    (Producer.mk ([] : List (Ptr × List Int)) false).Close.1.closed = true ∧
    (Producer.mk ([] : List (Ptr × List Int)) false).Close.1.Produce recordingTopic
        (Context.mk (some GoError.Canceled)) 0 =
      (Producer.mk [] true, none, some GoError.Canceled) ∧
    (Producer.mk ([] : List (Ptr × List Int)) false).Close.1.ProduceWithPartition recordingTopic
        (Context.mk (some GoError.Canceled)) 0 0 =
      (Producer.mk [] true, none, some GoError.Canceled) ∧
    GoError.Canceled ≠ GoError.ErrProducerIsClosed ∧
    ¬ (∀ (p : Producer (List (Ptr × List Int))) (ctx : Context) (m : Ptr) (partition : Int),
        (p.Close.1.Produce recordingTopic ctx m).2.2 = some GoError.ErrProducerIsClosed ∧
        (p.Close.1.ProduceWithPartition recordingTopic ctx m partition).2.2 =
          some GoError.ErrProducerIsClosed) := by
  refine ⟨rfl, by decide, by decide, by decide, ?_⟩
  intro hall
  have h1 := (hall (Producer.mk [] false) (Context.mk (some GoError.Canceled)) 0 0).1
  revert h1
  decide

/-- C11 (amended): after Close, every Produce and ProduceWithPartition fails
with a nil result and leaves the producer as it was: with ErrProducerIsClosed
when the context is not cancelled, with the context's error when it is. -/
theorem closed_producer_rejects_every_produce {σ : Type} (addMessage : AddMessage σ)
    (p : Producer σ) (ctx : Context) (m : Ptr) (partition : Int) :
    (ctx.Err = none →
      p.Close.1.Produce addMessage ctx m =
        (p.Close.1, none, some GoError.ErrProducerIsClosed) ∧
      p.Close.1.ProduceWithPartition addMessage ctx m partition =
        (p.Close.1, none, some GoError.ErrProducerIsClosed)) ∧
    (∀ e : GoError, ctx.Err = some e →
      p.Close.1.Produce addMessage ctx m = (p.Close.1, none, some e) ∧
      p.Close.1.ProduceWithPartition addMessage ctx m partition = (p.Close.1, none, some e)) ∧
    (p.Close.1.Produce addMessage ctx m).2.1 = none ∧
    (p.Close.1.ProduceWithPartition addMessage ctx m partition).2.1 = none ∧
    (p.Close.1.Produce addMessage ctx m).2.2 ≠ none ∧
    (p.Close.1.ProduceWithPartition addMessage ctx m partition).2.2 ≠ none := by
  refine ⟨?_, ?_, ?_, ?_, ?_, ?_⟩
  · intro hctx
    simp [Producer.Produce, Producer.ProduceWithPartition, Producer.isClosed, Producer.Close, hctx]
  · intro e hctx
    simp [Producer.Produce, Producer.ProduceWithPartition, hctx]
  all_goals
    cases hctx : ctx.Err <;>
      simp [Producer.Produce, Producer.ProduceWithPartition, Producer.isClosed, Producer.Close,
        hctx]

/-- C11 (amended), at a closed producer: ErrProducerIsClosed with the
background context, Canceled with a cancelled one. -/
theorem closed_producer_rejects_every_produce_witness :
    Context.background.Err = none ∧
    (Context.mk (some GoError.Canceled)).Err = some GoError.Canceled ∧
    (Producer.mk ([] : List (Ptr × List Int)) false).Close.1.Produce recordingTopic
        Context.background 0 =
      ((Producer.mk [] false).Close.1, none, some GoError.ErrProducerIsClosed) ∧
    (Producer.mk ([] : List (Ptr × List Int)) false).Close.1.Produce recordingTopic
        (Context.mk (some GoError.Canceled)) 0 =
      ((Producer.mk [] false).Close.1, none, some GoError.Canceled) :=
  ⟨rfl, rfl,
    ((closed_producer_rejects_every_produce recordingTopic (Producer.mk [] false)
      Context.background 0 0).1 rfl).1,
    ((closed_producer_rejects_every_produce recordingTopic (Producer.mk [] false)
      (Context.mk (some GoError.Canceled)) 0 0).2.1 GoError.Canceled rfl).1⟩

/-- C14: when the context is already cancelled or the producer is closed,
Produce and ProduceWithPartition return a nil result and leave the producer
and everything behind its topic pointer (partitions, message memory) as they
were; the outcome is the same whatever addMessage is, so addMessage is not
invoked. -/
theorem rejected_produce_changes_nothing {σ : Type} (addMessage : AddMessage σ)
    (p : Producer σ) (ctx : Context) (m : Ptr) (partition : Int)
    (hrej : ctx.Err ≠ none ∨ p.closed = true) :
    (p.Produce addMessage ctx m).1 = p ∧
    (p.ProduceWithPartition addMessage ctx m partition).1 = p ∧
    (p.Produce addMessage ctx m).1.t = p.t ∧
    (p.ProduceWithPartition addMessage ctx m partition).1.t = p.t ∧
    (p.Produce addMessage ctx m).1.closed = p.closed ∧
    (p.ProduceWithPartition addMessage ctx m partition).1.closed = p.closed ∧
    (p.Produce addMessage ctx m).2.1 = none ∧
    (p.ProduceWithPartition addMessage ctx m partition).2.1 = none ∧
    (∀ other : AddMessage σ,
      p.Produce other ctx m = p.Produce addMessage ctx m ∧
      p.ProduceWithPartition other ctx m partition =
        p.ProduceWithPartition addMessage ctx m partition) := by
  rcases hrej with hctx | hcl
  · simp [Producer.Produce, Producer.ProduceWithPartition, hctx]
  · by_cases hctx : ctx.Err = none
    · simp [Producer.Produce, Producer.ProduceWithPartition, Producer.isClosed, hctx, hcl]
    · simp [Producer.Produce, Producer.ProduceWithPartition, hctx]

/-- C14, at an open producer whose topic has logged one call, with a
cancelled context: the call log is as before. -/
theorem rejected_produce_changes_nothing_witness :
    ((Context.mk (some GoError.Canceled)).Err ≠ none ∨
      (Producer.mk [((3 : Ptr), ([] : List Int))] false).closed = true) ∧
    ((Producer.mk [((3 : Ptr), ([] : List Int))] false).Produce recordingTopic
      (Context.mk (some GoError.Canceled)) 0).1.t = [(3, [])] ∧
    ((Producer.mk [((3 : Ptr), ([] : List Int))] false).ProduceWithPartition recordingTopic
      (Context.mk (some GoError.Canceled)) 0 2).1.t = [(3, [])] :=
  ⟨Or.inl (by decide),
    (rejected_produce_changes_nothing recordingTopic (Producer.mk [(3, [])] false)
      (Context.mk (some GoError.Canceled)) 0 2 (Or.inl (by decide))).2.2.1,
    (rejected_produce_changes_nothing recordingTopic (Producer.mk [(3, [])] false)
      (Context.mk (some GoError.Canceled)) 0 2 (Or.inl (by decide))).2.2.2.1⟩

/-- C20: on an open producer with a context that is not cancelled, Produce
and ProduceWithPartition return the non-nil zero-valued ProducerResult
together with exactly the error of addMessage, non-nil or not; with a
cancelled context, and on the closed producer, the result is nil. -/
theorem open_producer_returns_empty_result {σ : Type} (addMessage : AddMessage σ)
    (p : Producer σ) (ctx : Context) (m : Ptr) (partition : Int)
    (hopen : p.closed = false) (hctx : ctx.Err = none) :
    (p.Produce addMessage ctx m).2 = (some ProducerResult.zero, (addMessage p.t m []).2) ∧
    (p.ProduceWithPartition addMessage ctx m partition).2 =
      (some ProducerResult.zero, (addMessage p.t m [partition]).2) ∧
    (∀ cancelled : Context, cancelled.Err ≠ none →
      (p.Produce addMessage cancelled m).2.1 = none ∧
      (p.ProduceWithPartition addMessage cancelled m partition).2.1 = none) ∧
    (p.Close.1.Produce addMessage ctx m).2.1 = none ∧
    (p.Close.1.ProduceWithPartition addMessage ctx m partition).2.1 = none := by
  refine ⟨?_, ?_, ?_, ?_, ?_⟩
  · simp [Producer.Produce, Producer.isClosed, hopen, hctx]
  · simp [Producer.ProduceWithPartition, Producer.isClosed, hopen, hctx]
  · intro cancelled hc
    simp [Producer.Produce, Producer.ProduceWithPartition, hc]
  · simp [Producer.Produce, Producer.isClosed, Producer.Close, hctx]
  · simp [Producer.ProduceWithPartition, Producer.isClosed, Producer.Close, hctx]

/-- C20, at a topic whose addMessage reports an error: the result is still
the non-nil zero value, and the error is that of addMessage. -/
theorem open_producer_returns_empty_result_witness :
    (Producer.mk () false).closed = false ∧ Context.background.Err = none ∧
    ((Producer.mk () false).Produce refusingTopic Context.background 0).2 =
      (some (ProducerResult.mk 0 0), some (GoError.topicErr 7)) ∧
    ((Producer.mk () false).ProduceWithPartition refusingTopic Context.background 0 2).2 =
      (some (ProducerResult.mk 0 0), some (GoError.topicErr 7)) :=
  ⟨rfl, rfl,
    (open_producer_returns_empty_result refusingTopic (Producer.mk () false)
      Context.background 0 2 rfl rfl).1,
    (open_producer_returns_empty_result refusingTopic (Producer.mk () false)
      Context.background 0 2 rfl rfl).2.1⟩

/-! ## Reads: window, outcome, paging -/

/-- C16: on a partition of length n, for 0 <= cursor <= n and limit >= 0 with
cursor + limit + 1 not above MaxInt64, consumerMsg(cursor, limit) returns the
entries at the indices cursor, cursor + 1, ... in log order, as many as
min(limit + 1, n - cursor): limit + 1 of them whenever that many are
available from cursor. -/
theorem consumerMsg_returns_window (p : Partition) (cursor limit : Int) (hc : 0 ≤ cursor)
    (hcl : cursor ≤ (p.data.length : Int)) (hl : 0 ≤ limit)
    (hov : cursor + limit + 1 ≤ maxInt) :
    ∃ ms, consumerMsg p cursor limit = GoResult.ret ms ∧
      (ms.length : Int) = min (limit + 1) ((p.data.length : Int) - cursor) ∧
      (ms.length : Int) = min (cursor + limit + 1) (p.data.length : Int) - cursor ∧
      (∀ i : Nat, i < ms.length → ms[i]? = p.data[cursor.toNat + i]?) ∧
      (limit + 1 ≤ (p.data.length : Int) - cursor → (ms.length : Int) = limit + 1) := by
  have hlen : (((p.data.drop cursor.toNat).take (limit.toNat + 1)).length : Int) =
      min (limit + 1) ((p.data.length : Int) - cursor) := by
    rw [List.length_take, List.length_drop]
    omega
  refine ⟨(p.data.drop cursor.toNat).take (limit.toNat + 1),
    consumerMsg_in_range p cursor limit hc hcl hl hov, hlen, by omega, ?_, by omega⟩
  intro i hi
  rw [List.length_take] at hi
  rw [List.getElem?_take_of_lt (by omega), List.getElem?_drop]

/-- C16, at a log of five messages: consumerMsg(1, 2) returns the three
entries at indices 1, 2, 3. -/
theorem consumerMsg_returns_window_witness :
    (0 : Int) ≤ 1 ∧ (1 : Int) ≤ ((Partition.mk [4, 9, 2, 7, 1]).data.length : Int) ∧
    (0 : Int) ≤ 2 ∧ (1 : Int) + 2 + 1 ≤ maxInt ∧
    consumerMsg (Partition.mk [4, 9, 2, 7, 1]) 1 2 = GoResult.ret [9, 2, 7] ∧
    ∃ ms, consumerMsg (Partition.mk [4, 9, 2, 7, 1]) 1 2 = GoResult.ret ms ∧
      (ms.length : Int) = min (2 + 1) (((Partition.mk [4, 9, 2, 7, 1]).data.length : Int) - 1) ∧
      (ms.length : Int) =
        min (1 + 2 + 1) ((Partition.mk [4, 9, 2, 7, 1]).data.length : Int) - 1 ∧
      (∀ i : Nat, i < ms.length →
        ms[i]? = (Partition.mk [4, 9, 2, 7, 1]).data[(1 : Int).toNat + i]?) ∧
      ((2 : Int) + 1 ≤ ((Partition.mk [4, 9, 2, 7, 1]).data.length : Int) - 1 →
        (ms.length : Int) = 2 + 1) :=
  ⟨by decide, by decide, by decide, by decide, by decide,
    consumerMsg_returns_window (Partition.mk [4, 9, 2, 7, 1]) 1 2 (by decide) (by decide)
      (by decide) (by decide)⟩

/-- C17: sendMsg overwrites the Offset of the message it is given with the
partition's prior length, whatever the caller put there, keeps that
message's Key, Value, Header, Topic and PartitionID, and leaves every other
message as it was. -/
theorem sendMsg_changes_only_offset (p : Partition) (h : Heap) (m : Ptr) :
    ((sendMsg p h m).2 m).Offset = (p.data.length : Int) ∧
    ((sendMsg p h m).2 m).Key = (h m).Key ∧
    ((sendMsg p h m).2 m).Value = (h m).Value ∧
    ((sendMsg p h m).2 m).Header = (h m).Header ∧
    ((sendMsg p h m).2 m).Topic = (h m).Topic ∧
    ((sendMsg p h m).2 m).PartitionID = (h m).PartitionID ∧
    ∀ q : Ptr, (sendMsg p h m).2 q =
      if q = m then { h m with Offset := (p.data.length : Int) } else h q := by
  refine ⟨by simp [sendMsg], by simp [sendMsg], by simp [sendMsg], by simp [sendMsg],
    by simp [sendMsg], by simp [sendMsg], ?_⟩
  intro q
  by_cases hq : q = m
  · subst hq
    simp [sendMsg]
  · simp [sendMsg, Function.update_noteq hq, hq]

/-- C18 fails as stated: with limit = MaxInt64 the first call on a log of one
message panics (the sum 0 + limit + 1 wraps to MinInt64), so no number of
calls reads the log to its end. -/
theorem paged_read_counterexample :
    (0 : Int) ≤ ((Partition.mk [7]).data.length : Int) ∧ (0 : Int) ≤ maxInt ∧ isInt maxInt ∧
    consumerMsg (Partition.mk [7]) 0 maxInt =
      GoResult.panic RuntimePanic.sliceBoundsOutOfRange ∧
    pagedRead (Partition.mk [7]) maxInt 1 0 =
      Paged.panicked RuntimePanic.sliceBoundsOutOfRange ∧
    ¬ (∃ (fuel : Nat) (bs : List (List Ptr)),
        pagedRead (Partition.mk [7]) maxInt fuel 0 = Paged.done bs) := by
  have h1 : consumerMsg (Partition.mk [7]) 0 maxInt =
      GoResult.panic RuntimePanic.sliceBoundsOutOfRange := by decide
  refine ⟨by decide, by decide, by decide, h1, by decide, ?_⟩
  rintro ⟨fuel, bs, hdone⟩
  exact pagedRead_not_done_of_panic (Partition.mk [7]) maxInt 0 (by decide) _ h1 fuel bs hdone

/-- C18 (amended): on a partition of length n, for every start cursor c0 with
0 <= c0 <= n and every limit >= 0 with n + limit not above MaxInt64, paged
reading from c0 reaches the end of the log within n - c0 calls (every call
below the end returns at least one message), and the batches, concatenated
in call order, are the log entries c0 .. n-1 in order. -/
theorem paged_read_covers_log (p : Partition) (c0 limit : Int) (hc : 0 ≤ c0)
    (hcl : c0 ≤ (p.data.length : Int)) (hl : 0 ≤ limit)
    (hov : (p.data.length : Int) + limit ≤ maxInt) :
    (∃ bs, (∀ fuel : Nat, ((p.data.length : Int) - c0).toNat ≤ fuel →
        pagedRead p limit fuel c0 = Paged.done bs) ∧
      bs.flatten = p.data.drop c0.toNat ∧ (∀ b, b ∈ bs → b ≠ [])) ∧
    (∀ c : Int, 0 ≤ c → c < (p.data.length : Int) →
      ∃ ms, consumerMsg p c limit = GoResult.ret ms ∧ ms ≠ []) := by
  constructor
  · obtain ⟨bs, hb1, hb2, hb3⟩ :=
      pagedRead_done p limit hl hov ((p.data.length : Int) - c0).toNat c0 hc hcl (by omega)
    refine ⟨bs, ?_, hb2, hb3⟩
    intro fuel hfuel
    have hsplit : fuel = ((p.data.length : Int) - c0).toNat +
        (fuel - ((p.data.length : Int) - c0).toNat) := by omega
    rw [hsplit]
    exact pagedRead_more_fuel p limit _ c0 bs hb1 _
  · intro c h0 h1
    refine ⟨(p.data.drop c.toNat).take (limit.toNat + 1),
      consumerMsg_in_range p c limit h0 (by omega) hl (by omega), ?_⟩
    intro hnil
    have hlen := congrArg List.length hnil
    rw [List.length_take, List.length_drop] at hlen
    simp only [List.length_nil] at hlen
    omega

/-- C18 (amended), at a log of five messages read from the start with limit
1: three calls, batches of 2, 2 and 1 messages. -/
theorem paged_read_covers_log_witness :
    (0 : Int) ≤ 0 ∧ (0 : Int) ≤ ((Partition.mk [4, 9, 2, 7, 1]).data.length : Int) ∧
    (0 : Int) ≤ 1 ∧ ((Partition.mk [4, 9, 2, 7, 1]).data.length : Int) + 1 ≤ maxInt ∧
    pagedRead (Partition.mk [4, 9, 2, 7, 1]) 1 3 0 = Paged.done [[4, 9], [2, 7], [1]] ∧
    (∃ bs, (∀ fuel : Nat,
        (((Partition.mk [4, 9, 2, 7, 1]).data.length : Int) - 0).toNat ≤ fuel →
        pagedRead (Partition.mk [4, 9, 2, 7, 1]) 1 fuel 0 = Paged.done bs) ∧
      bs.flatten = (Partition.mk [4, 9, 2, 7, 1]).data.drop (0 : Int).toNat ∧
      (∀ b, b ∈ bs → b ≠ [])) :=
  ⟨by decide, by decide, by decide, by decide, by decide,
    (paged_read_covers_log (Partition.mk [4, 9, 2, 7, 1]) 0 1 (by decide) (by decide)
      (by decide) (by decide)).1⟩

/-- C19: consumerMsg(cursor, limit) on a partition of length n returns,
instead of panicking on the slice bounds, exactly when
0 <= cursor <= min(w, n), with w the wrapped 64-bit sum cursor + limit + 1.
It returns whenever 0 <= cursor <= n, limit >= 0 and the sum does not exceed
MaxInt64; it panics for every cursor > n, for every limit <= -2, and for
limit = MaxInt64 with cursor >= 0, where w is negative. -/
theorem consumerMsg_returns_iff (p : Partition) (cursor limit : Int) (hcur : isInt cursor)
    (hlim : isInt limit) :
    addInt (addInt cursor limit) 1 = wrapInt (cursor + limit + 1) ∧
    ((consumerMsg p cursor limit).returns = true ↔
      0 ≤ cursor ∧ cursor ≤ min (wrapInt (cursor + limit + 1)) (p.data.length : Int)) ∧
    ((consumerMsg p cursor limit).returns = false ↔
      consumerMsg p cursor limit = GoResult.panic RuntimePanic.sliceBoundsOutOfRange) ∧
    (0 ≤ cursor → cursor ≤ (p.data.length : Int) → 0 ≤ limit → cursor + limit + 1 ≤ maxInt →
      (consumerMsg p cursor limit).returns = true) ∧
    ((p.data.length : Int) < cursor → (consumerMsg p cursor limit).returns = false) ∧
    (limit ≤ -2 → (consumerMsg p cursor limit).returns = false) ∧
    (limit = maxInt → 0 ≤ cursor →
      wrapInt (cursor + limit + 1) < 0 ∧ (consumerMsg p cursor limit).returns = false) := by
  have hiff : (consumerMsg p cursor limit).returns = true ↔
      0 ≤ cursor ∧ cursor ≤ min (wrapInt (cursor + limit + 1)) (p.data.length : Int) := by
    rw [consumerMsg_wantLen, sliceExpr_returns_iff]
    constructor
    · intro h
      exact ⟨h.1, h.2.1⟩
    · intro h
      exact ⟨h.1, h.2, min_le_right _ _⟩
  have hfalse : ∀ hno : ¬ (0 ≤ cursor ∧
      cursor ≤ min (wrapInt (cursor + limit + 1)) (p.data.length : Int)),
      (consumerMsg p cursor limit).returns = false := by
    intro hno
    cases hr : (consumerMsg p cursor limit).returns with
    | true => exact absurd (hiff.mp hr) hno
    | false => rfl
  unfold isInt minInt maxInt at hcur hlim
  refine ⟨addInt_addInt_one cursor limit, hiff, ?_, ?_, ?_, ?_, ?_⟩
  · cases hr : consumerMsg p cursor limit with
    | ret v => simp [GoResult.returns]
    | panic r => cases r; simp [GoResult.returns]
  · intro h0 h1 h2 h3
    apply hiff.mpr
    have hw : wrapInt (cursor + limit + 1) = cursor + limit + 1 :=
      wrapInt_of_isInt _ ⟨by unfold minInt; omega, h3⟩
    rw [hw]
    omega
  · intro h
    apply hfalse
    omega
  · intro h
    apply hfalse
    unfold wrapInt
    omega
  · intro h h0
    have hw : wrapInt (cursor + limit + 1) < 0 := by
      unfold maxInt at h
      unfold wrapInt
      omega
    refine ⟨hw, ?_⟩
    apply hfalse
    omega

/-- C19, at a log of five messages with cursor 2: limit 1 returns, limit -2
and limit MaxInt64 panic. -/
theorem consumerMsg_returns_iff_witness :
    isInt 2 ∧ isInt 1 ∧ isInt (-2) ∧ isInt maxInt ∧
    (consumerMsg (Partition.mk [4, 9, 2, 7, 1]) 2 1).returns = true ∧
    (consumerMsg (Partition.mk [4, 9, 2, 7, 1]) 2 (-2)).returns = false ∧
    (wrapInt (2 + maxInt + 1) < 0 ∧
      (consumerMsg (Partition.mk [4, 9, 2, 7, 1]) 2 maxInt).returns = false) :=
  ⟨by decide, by decide, by decide, by decide,
    (consumerMsg_returns_iff (Partition.mk [4, 9, 2, 7, 1]) 2 1 (by decide)
      (by decide)).2.2.2.1 (by decide) (by decide) (by decide) (by decide),
    (consumerMsg_returns_iff (Partition.mk [4, 9, 2, 7, 1]) 2 (-2) (by decide)
      (by decide)).2.2.2.2.2.1 (by decide),
    (consumerMsg_returns_iff (Partition.mk [4, 9, 2, 7, 1]) 2 maxInt (by decide)
      (by decide)).2.2.2.2.2.2 rfl (by decide)⟩

/-! ## The producer and the topic -/

theorem Topic.addMessage_explicit (getPartitionID : List Nat → Int) (t : Topic) (m : Ptr)
    (pid : Int) (hlo : 0 ≤ pid) (hhi : pid < (t.partitions.length : Int)) :
    Topic.addMessage getPartitionID t m [pid] =
      ({ t with
          partitions := t.partitions.set pid.toNat
            (sendMsg (t.partitions.getD pid.toNat NewPartition)
              (Function.update t.heap m { t.heap m with Topic := t.name, PartitionID := pid })
              m).1
          heap := (sendMsg (t.partitions.getD pid.toNat NewPartition)
              (Function.update t.heap m { t.heap m with Topic := t.name, PartitionID := pid })
              m).2 }, none) := by
  simp [Topic.addMessage, hlo, hhi]

theorem Producer.ProduceWithPartition_open {σ : Type} (addMessage : AddMessage σ)
    (q : Producer σ) (ctx : Context) (m : Ptr) (partition : Int) (hopen : q.closed = false)
    (hctx : ctx.Err = none) :
    q.ProduceWithPartition addMessage ctx m partition =
      ({ q with t := (addMessage q.t m [partition]).1 }, some ProducerResult.zero,
        (addMessage q.t m [partition]).2) := by
  simp [Producer.ProduceWithPartition, Producer.isClosed, hopen, hctx]

/-- C12: on an open producer with a context that is not cancelled,
ProduceWithPartition(ctx, m, p) makes exactly one addMessage call, with m and
the one partition value p; with the topic's addMessage (modelled) and p in
range, that call succeeds, stamps PartitionID = p on m, appends m to
partition p and leaves the other partitions as they were. -/
theorem produceWithPartition_targets_partition (getPartitionID : List Nat → Int)
    (p : Producer Topic) (ctx : Context) (m : Ptr) (partition : Int)
    (hopen : p.closed = false) (hctx : ctx.Err = none) (hlo : 0 ≤ partition)
    (hhi : partition < (p.t.partitions.length : Int)) :
    (∀ (σ : Type) (addMessage : AddMessage σ) (q : Producer σ), q.closed = false →
      q.ProduceWithPartition addMessage ctx m partition =
        ({ q with t := (addMessage q.t m [partition]).1 }, some ProducerResult.zero,
          (addMessage q.t m [partition]).2)) ∧
    (∀ log : List (Ptr × List Int),
      ((Producer.mk log false).ProduceWithPartition recordingTopic ctx m partition).1.t =
        log ++ [(m, [partition])]) ∧
    (p.ProduceWithPartition (Topic.addMessage getPartitionID) ctx m partition).2.2 = none ∧
    ((p.ProduceWithPartition (Topic.addMessage getPartitionID) ctx m partition).1.t.heap
      m).PartitionID = partition ∧
    ((p.ProduceWithPartition (Topic.addMessage getPartitionID) ctx m
      partition).1.t.partitions.getD partition.toNat NewPartition).data =
        (p.t.partitions.getD partition.toNat NewPartition).data ++ [m] ∧
    (∀ j : Nat, j ≠ partition.toNat →
      (p.ProduceWithPartition (Topic.addMessage getPartitionID) ctx m
        partition).1.t.partitions.getD j NewPartition = p.t.partitions.getD j NewPartition) := by
  have hnat : partition.toNat < p.t.partitions.length := by omega
  refine ⟨?_, ?_, ?_, ?_, ?_, ?_⟩
  · intro σ addMessage q hq
    exact Producer.ProduceWithPartition_open addMessage q ctx m partition hq hctx
  · intro log
    rw [Producer.ProduceWithPartition_open recordingTopic _ ctx m partition rfl hctx]
    simp [recordingTopic]
  · rw [Producer.ProduceWithPartition_open _ p ctx m partition hopen hctx,
      Topic.addMessage_explicit getPartitionID p.t m partition hlo hhi]
  · rw [Producer.ProduceWithPartition_open _ p ctx m partition hopen hctx,
      Topic.addMessage_explicit getPartitionID p.t m partition hlo hhi]
    simp [sendMsg]
  · rw [Producer.ProduceWithPartition_open _ p ctx m partition hopen hctx,
      Topic.addMessage_explicit getPartitionID p.t m partition hlo hhi]
    simp [sendMsg, hnat]
  · intro j hj
    rw [Producer.ProduceWithPartition_open _ p ctx m partition hopen hctx,
      Topic.addMessage_explicit getPartitionID p.t m partition hlo hhi]
    simp [List.getElem?_set_ne (Ne.symm hj)]

/-- C12, at the test: the six messages sent to the partitions 0, 1, 2, 0, 1,
2 of a four-partition topic are stored there with those partition ids. -/
theorem produceWithPartition_targets_partition_witness :
    (Producer.mk partitionTestTopic false).closed = false ∧ Context.background.Err = none ∧
    (0 : Int) ≤ 1 ∧ (1 : Int) < (partitionTestTopic.partitions.length : Int) ∧
    (Producer.run (Topic.addMessage firstByteHasher) (Producer.mk partitionTestTopic false)
      partitionTestCalls).t.partitions =
        [Partition.mk [0, 3], Partition.mk [1, 4], Partition.mk [2, 5], Partition.mk []] ∧
    [0, 1, 2, 3, 4, 5].map (fun q =>
      ((Producer.run (Topic.addMessage firstByteHasher) (Producer.mk partitionTestTopic false)
        partitionTestCalls).t.heap q).PartitionID) = [0, 1, 2, 0, 1, 2] ∧
    (((Producer.mk partitionTestTopic false).ProduceWithPartition
      (Topic.addMessage firstByteHasher) Context.background 1 1).1.t.heap 1).PartitionID = 1 :=
  ⟨rfl, rfl, by decide, by decide, by decide, by decide,
    (produceWithPartition_targets_partition firstByteHasher (Producer.mk partitionTestTopic false)
      Context.background 1 1 rfl rfl (by decide) (by decide)).2.2.2.1⟩

/-- C13 fails as stated: the second message sent to partition 1 is stamped
with offset 1 and partition 1, the call succeeds, and the result it returns
is the zero-valued ProducerResult, offset 0 and partition 0. -/
theorem producer_result_counterexample :
    (afterFirstSend.ProduceWithPartition (Topic.addMessage firstByteHasher)
      Context.background 1 1).2 = (some ProducerResult.zero, none) ∧
    ((afterFirstSend.ProduceWithPartition (Topic.addMessage firstByteHasher)
      Context.background 1 1).1.t.heap 1).Offset = 1 ∧
    ((afterFirstSend.ProduceWithPartition (Topic.addMessage firstByteHasher)
      Context.background 1 1).1.t.heap 1).PartitionID = 1 ∧
    ProducerResult.zero.Offset = 0 ∧ ProducerResult.zero.Partition = 0 ∧
    ¬ (∀ (p : Producer Topic) (ctx : Context) (m : Ptr) (partition : Int) (r : ProducerResult),
        (p.ProduceWithPartition (Topic.addMessage firstByteHasher) ctx m partition).2 =
          (some r, none) →
        r.Offset = ((p.ProduceWithPartition (Topic.addMessage firstByteHasher) ctx m
          partition).1.t.heap m).Offset ∧
        r.Partition = ((p.ProduceWithPartition (Topic.addMessage firstByteHasher) ctx m
          partition).1.t.heap m).PartitionID) := by
  have h1 : (afterFirstSend.ProduceWithPartition (Topic.addMessage firstByteHasher)
      Context.background 1 1).2 = (some ProducerResult.zero, none) := by decide
  have h2 : ((afterFirstSend.ProduceWithPartition (Topic.addMessage firstByteHasher)
      Context.background 1 1).1.t.heap 1).Offset = 1 := by decide
  refine ⟨h1, h2, by decide, rfl, rfl, ?_⟩
  intro hall
  have h3 := (hall afterFirstSend Context.background 1 1 ProducerResult.zero h1).1
  rw [h2] at h3
  revert h3
  decide

/-- C13 (amended): every successful Produce or ProduceWithPartition returns
the zero-valued ProducerResult, whatever offset and partition the append
stamped on the message. -/
theorem successful_produce_returns_zero_result {σ : Type} (addMessage : AddMessage σ)
    (p : Producer σ) (ctx : Context) (m : Ptr) (partition : Int) :
    ((p.Produce addMessage ctx m).2.2 = none →
      (p.Produce addMessage ctx m).2.1 = some ProducerResult.zero) ∧
    ((p.ProduceWithPartition addMessage ctx m partition).2.2 = none →
      (p.ProduceWithPartition addMessage ctx m partition).2.1 = some ProducerResult.zero) := by
  constructor
  · intro h
    cases hctx : ctx.Err with
    | some e => simp [Producer.Produce, hctx] at h
    | none =>
      cases hcl : p.closed with
      | true => simp [Producer.Produce, Producer.isClosed, hctx, hcl] at h
      | false => simp [Producer.Produce, Producer.isClosed, hctx, hcl]
  · intro h
    cases hctx : ctx.Err with
    | some e => simp [Producer.ProduceWithPartition, hctx] at h
    | none =>
      cases hcl : p.closed with
      | true => simp [Producer.ProduceWithPartition, Producer.isClosed, hctx, hcl] at h
      | false => simp [Producer.ProduceWithPartition, Producer.isClosed, hctx, hcl]

/-- C13 (amended), at the second message sent to partition 1: the call
succeeds, stamps offset 1, and returns the zero-valued result. -/
theorem successful_produce_returns_zero_result_witness :
    (afterFirstSend.ProduceWithPartition (Topic.addMessage firstByteHasher)
      Context.background 1 1).2.2 = none ∧
    ((afterFirstSend.ProduceWithPartition (Topic.addMessage firstByteHasher)
      Context.background 1 1).1.t.heap 1).Offset = 1 ∧
    (afterFirstSend.ProduceWithPartition (Topic.addMessage firstByteHasher)
      Context.background 1 1).2.1 = some ProducerResult.zero :=
  ⟨by decide, by decide,
    (successful_produce_returns_zero_result (Topic.addMessage firstByteHasher) afterFirstSend
      Context.background 1 1).2 (by decide)⟩

end MqApi
